import Mathlib

/-
Verification development for the Mars adaptive habitat growth solver
(`src/growth_solver.py`).  The Python program is shallowly embedded below:
floating-point arithmetic is idealised as real arithmetic, the Rhino
geometry types become a small vector algebra over `ℝ`, and the terrain
mesh is abstracted to the geometry oracle the program actually queries
(`ClosestMeshPoint` returning an optional surface point with its normal).
The global pseudo-random source used by `random.choice` is made explicit
as an injected function `rand : ℕ → ℕ`; at the (at most one) draw of
iteration `i` the drawn index is `rand i % colony size`, so every choice
of the stream corresponds to one realisable run of the Python program.
-/

/-- 3D point / vector (Rhino `Point3d` / `Vector3d`), idealised over `ℝ`. -/
@[ext]
structure Vec3 where
  x : ℝ
  y : ℝ
  z : ℝ

noncomputable instance : Add Vec3 :=
  ⟨fun a b => ⟨a.x + b.x, a.y + b.y, a.z + b.z⟩⟩

noncomputable instance : Sub Vec3 :=
  ⟨fun a b => ⟨a.x - b.x, a.y - b.y, a.z - b.z⟩⟩

noncomputable instance : SMul ℝ Vec3 :=
  ⟨fun s v => ⟨s * v.x, s * v.y, s * v.z⟩⟩

/-- Dot product (`Vector3d.Multiply`, written `*` in the Python source). -/
def Vec3.dot (a b : Vec3) : ℝ :=
  a.x * b.x + a.y * b.y + a.z * b.z

/-- Euclidean length of a vector (`Vector3d.Length`). -/
noncomputable def Vec3.norm (v : Vec3) : ℝ :=
  Real.sqrt (v.dot v)

/-- `Point3d.DistanceTo`. -/
noncomputable def Vec3.distanceTo (a b : Vec3) : ℝ :=
  (a - b).norm

/-- `Vector3d.Unitize`: scale to unit length; a zero vector is left unchanged
(Rhino returns `false` and does not modify the vector). -/
noncomputable def Vec3.unitize (v : Vec3) : Vec3 :=
  if v.norm = 0 then v else v.norm⁻¹ • v

/-- `Vector3d.VectorAngle`: the angle in radians between two vectors. -/
noncomputable def vectorAngle (a b : Vec3) : ℝ :=
  Real.arccos (a.dot b / (a.norm * b.norm))

/-- `Vector3d.ZAxis`, the up axis. -/
noncomputable def zAxis : Vec3 := ⟨0, 0, 1⟩

/-- `math.radians`. -/
noncomputable def radians (d : ℝ) : ℝ := d * Real.pi / 180

/-- `math.degrees`. -/
noncomputable def degrees (r : ℝ) : ℝ := r * 180 / Real.pi

/- PARAMS (lines 27-32 of growth_solver.py). -/

/-- `PARAMS["max_slope_deg"]`. -/
noncomputable def max_slope_deg : ℝ := 30.0

/-- `PARAMS["min_dist"]`. -/
noncomputable def min_dist : ℝ := 3.0

/-- `PARAMS["step_size"]`. -/
noncomputable def step_size : ℝ := 3.5

/-- `rg.Vector3d(0, -3, 0.5)` before the `Unitize` call on line 35. -/
noncomputable def sun_vec_raw : Vec3 := ⟨0, -3, 0.5⟩

/-- `PARAMS["sun_vec"]` after `Unitize` (line 35). -/
noncomputable def sun_vec : Vec3 := sun_vec_raw.unitize

/-- The result of `ClosestMeshPoint`: a surface point together with the mesh
normal `NormalAt` yields for it. -/
structure MeshPoint where
  point : Vec3
  normal : Vec3

/-- The geometry oracle: the only capability of `terrain_mesh` the solver
uses, `ClosestMeshPoint(point, search_radius)`, which returns nothing when no
surface point lies within the radius. -/
structure Mesh where
  closestMeshPoint : Vec3 → ℝ → Option MeshPoint

/-- One hexagonal search direction (lines 39-43): angle `i*60` degrees in the
fixed world `z = 0` plane, scaled by `step_size`. -/
noncomputable def hexDir (i : ℕ) : Vec3 :=
  step_size • ⟨Real.cos (radians ((i : ℝ) * 60)), Real.sin (radians ((i : ℝ) * 60)), 0⟩

/-- `growth_directions` (lines 38-43): the six hexagonal offsets, in order. -/
noncomputable def growth_directions : List Vec3 :=
  (List.range 6).map hexDir

/-- The solar-alignment score of a candidate seen from the cursor
(lines 106-111): `dot(unitize(cand - current), sun_vec)`. -/
noncomputable def scoreOf (current cand : Vec3) : ℝ :=
  ((cand - current).unitize).dot sun_vec

/-- One step of the heliotropic selection loop (lines 105-115): keep the
candidate if its score strictly exceeds the best so far. -/
noncomputable def selStep (current : Vec3) (best : Option Vec3 × ℝ) (cand : Vec3) :
    Option Vec3 × ℝ :=
  if scoreOf current cand > best.2 then (some cand, scoreOf current cand) else best

/-- The heliotropic selector (lines 102-115): fold over the candidates,
keeping the first candidate whose score strictly exceeds the best so far;
the accumulator starts at `(None, -999.0)`. -/
noncomputable def selectBest (current : Vec3) (cands : List Vec3) : Option Vec3 × ℝ :=
  cands.foldl (selStep current) (none, -999.0)

/-- Sensing plus constraint checking for a single direction (lines 64-91):
project `current + d` with radius 1000.0; reject on projection failure, on a
normal steeper than `max_slope_deg` against the up axis, or on distance to
any existing module below `min_dist - 0.1`; otherwise accept the grounded
point. -/
noncomputable def senseDir (mesh : Mesh) (modules : List Vec3) (current : Vec3)
    (d : Vec3) : Option Vec3 :=
  match mesh.closestMeshPoint (current + d) 1000.0 with
  | none => none
  | some mp =>
    if degrees (vectorAngle mp.normal zAxis) > max_slope_deg then none
    else if modules.any (fun existing => mp.point.distanceTo existing < min_dist - 0.1)
      then none
    else some mp.point

/-- One step of the sensing loop: append the accepted grounded point of the
direction `d`, if any, to the accumulated `candidates` (line 91's append,
with all `continue`-rejections leaving the list unchanged). -/
noncomputable def collectStep (mesh : Mesh) (modules : List Vec3) (current : Vec3)
    (acc : List Vec3) (d : Vec3) : List Vec3 :=
  match senseDir mesh modules current d with
  | none => acc
  | some c => acc ++ [c]

/-- The `candidates` list built by the sensing loop of one iteration
(lines 61-91): accepted grounded points appended in direction order. -/
noncomputable def candidatesOf (mesh : Mesh) (modules : List Vec3) (current : Vec3) :
    List Vec3 :=
  growth_directions.foldl (collectStep mesh modules current) []

/-- The mutable state of the simulation driver: the colony `modules`, the
parallel list `iterations` of creation indices, and the cursor `current`.
`itersDone` is a ghost counter of completed loop iterations (the Python loop
variable's progress); it does not influence any decision. -/
structure SimState where
  modules : List Vec3
  iterations : List ℕ
  current : Vec3
  itersDone : ℕ

/-- One decision iteration of the main growth loop (lines 59-121): sense,
then either backtrack (`random.choice` over the colony, modelled by the
injected index `rand i`) when no candidate survived, or append the
selector's winner with creation index `i` and move the cursor to it. -/
noncomputable def stepIter (mesh : Mesh) (rand : ℕ → ℕ) (st : SimState) (i : ℕ) :
    SimState :=
  let candidates := candidatesOf mesh st.modules st.current
  if candidates.isEmpty then
    { st with
        current := st.modules.getD (rand i % st.modules.length) st.current
        itersDone := st.itersDone + 1 }
  else
    match (selectBest st.current candidates).1 with
    | some best_cand =>
      { modules := st.modules ++ [best_cand]
        iterations := st.iterations ++ [i]
        current := best_cand
        itersDone := st.itersDone + 1 }
    | none => { st with itersDone := st.itersDone + 1 }

/-- Seed grounding (lines 49-50): `mp = ClosestMeshPoint(seed_point, 1000000.0);
current = mp.Point if mp else seed_point`. -/
noncomputable def groundedSeed (mesh : Mesh) (seed_point : Vec3) : Vec3 :=
  match mesh.closestMeshPoint seed_point 1000000.0 with
  | some mp => mp.point
  | none => seed_point

/-- The driver state right before the main loop (lines 49-53):
`modules = [current]`, `iterations = [0]`. -/
noncomputable def initState (mesh : Mesh) (seed_point : Vec3) : SimState :=
  { modules := [groundedSeed mesh seed_point]
    iterations := [0]
    current := groundedSeed mesh seed_point
    itersDone := 0 }

/-- The whole simulation, returning the final driver state; the loop
`for i in range(1, max_modules + 1)` is the fold over `List.range' 1
max_modules = [1, …, max_modules]`. -/
noncomputable def run_simulation_full (mesh : Mesh) (seed_point : Vec3)
    (rand : ℕ → ℕ) (max_modules : ℕ) : SimState :=
  (List.range' 1 max_modules).foldl (stepIter mesh rand) (initState mesh seed_point)

/-- `run_simulation` (lines 24-124): returns the final `modules` list. -/
noncomputable def run_simulation (mesh : Mesh) (seed_point : Vec3)
    (rand : ℕ → ℕ) (max_modules : ℕ := 147) : List Vec3 :=
  (run_simulation_full mesh seed_point rand max_modules).modules

/- ## Concrete fixtures used by counterexamples and witnesses -/

/-- The origin, used as a concrete seed point. -/
noncomputable def seed0 : Vec3 := ⟨0, 0, 0⟩

/-- A concrete pseudo-random source that always draws index 0. -/
def rand0 : ℕ → ℕ := fun _ => 0

/-- A surface whose oracle never finds a point within any radius. -/
def mesh_none : Mesh := ⟨fun _ _ => none⟩

/-- A surface that projects every point onto itself with a horizontal
normal `(1,0,0)` (a vertical cliff everywhere). -/
noncomputable def mesh_steep : Mesh := ⟨fun p _ => some ⟨p, ⟨1, 0, 0⟩⟩⟩

/-- A surface whose oracle returns the constant point `(100,0,0)` with the
upward normal, for every query. -/
noncomputable def mesh_const : Mesh := ⟨fun _ _ => some ⟨⟨100, 0, 0⟩, ⟨0, 0, 1⟩⟩⟩

/- ## Componentwise algebra lemmas -/

@[simp] lemma Vec3.add_x (a b : Vec3) : (a + b).x = a.x + b.x := rfl
@[simp] lemma Vec3.add_y (a b : Vec3) : (a + b).y = a.y + b.y := rfl
@[simp] lemma Vec3.add_z (a b : Vec3) : (a + b).z = a.z + b.z := rfl
@[simp] lemma Vec3.sub_x (a b : Vec3) : (a - b).x = a.x - b.x := rfl
@[simp] lemma Vec3.sub_y (a b : Vec3) : (a - b).y = a.y - b.y := rfl
@[simp] lemma Vec3.sub_z (a b : Vec3) : (a - b).z = a.z - b.z := rfl
@[simp] lemma Vec3.smul_x (s : ℝ) (v : Vec3) : (s • v).x = s * v.x := rfl
@[simp] lemma Vec3.smul_y (s : ℝ) (v : Vec3) : (s • v).y = s * v.y := rfl
@[simp] lemma Vec3.smul_z (s : ℝ) (v : Vec3) : (s • v).z = s * v.z := rfl

lemma Vec3.dot_self_eq (v : Vec3) : v.dot v = v.x ^ 2 + v.y ^ 2 + v.z ^ 2 := by
  unfold Vec3.dot; ring

lemma Vec3.dot_self_nonneg (v : Vec3) : 0 ≤ v.dot v := by
  rw [v.dot_self_eq]; positivity

lemma Vec3.norm_nonneg (v : Vec3) : 0 ≤ v.norm := Real.sqrt_nonneg _

lemma Vec3.sq_norm (v : Vec3) : v.norm ^ 2 = v.dot v :=
  Real.sq_sqrt v.dot_self_nonneg

lemma Vec3.distanceTo_symm (a b : Vec3) : a.distanceTo b = b.distanceTo a := by
  unfold Vec3.distanceTo Vec3.norm Vec3.dot
  congr 1
  simp only [Vec3.sub_x, Vec3.sub_y, Vec3.sub_z]
  ring

lemma Vec3.dot_sq_le (u v : Vec3) : (u.dot v) ^ 2 ≤ (u.dot u) * (v.dot v) := by
  unfold Vec3.dot
  nlinarith [sq_nonneg (u.x * v.y - u.y * v.x), sq_nonneg (u.x * v.z - u.z * v.x),
    sq_nonneg (u.y * v.z - u.z * v.y)]

lemma Vec3.neg_one_le_dot (u v : Vec3) (hu : u.dot u ≤ 1) (hv : v.dot v ≤ 1) :
    -1 ≤ u.dot v := by
  nlinarith [u.dot_sq_le v, sq_nonneg (u.dot v + 1), u.dot_self_nonneg, v.dot_self_nonneg]

lemma Vec3.unitize_dot_self_le_one (v : Vec3) : v.unitize.dot v.unitize ≤ 1 := by
  unfold Vec3.unitize
  split
  · next h =>
    have h0 : v.dot v = 0 := (Real.sqrt_eq_zero v.dot_self_nonneg).mp h
    rw [h0]; norm_num
  · next h =>
    have hne : v.norm ≠ 0 := h
    have hval : (v.norm⁻¹ • v).dot (v.norm⁻¹ • v) = v.norm⁻¹ * v.norm⁻¹ * v.dot v := by
      unfold Vec3.dot
      simp only [Vec3.smul_x, Vec3.smul_y, Vec3.smul_z]
      ring
    rw [hval, ← v.sq_norm]
    have hone : v.norm⁻¹ * v.norm⁻¹ * v.norm ^ 2 = 1 := by
      field_simp
      ring
    rw [hone]

/- ## Sensing-loop structure -/

lemma collectStep_none {mesh : Mesh} {modules : List Vec3} {current d : Vec3}
    (h : senseDir mesh modules current d = none) (acc : List Vec3) :
    collectStep mesh modules current acc d = acc := by
  unfold collectStep; rw [h]

lemma collectStep_some {mesh : Mesh} {modules : List Vec3} {current d c : Vec3}
    (h : senseDir mesh modules current d = some c) (acc : List Vec3) :
    collectStep mesh modules current acc d = acc ++ [c] := by
  unfold collectStep; rw [h]

lemma candidatesOf_foldl (mesh : Mesh) (modules : List Vec3) (current : Vec3) :
    ∀ (l : List Vec3) (acc : List Vec3),
      l.foldl (collectStep mesh modules current) acc
        = acc ++ l.filterMap (senseDir mesh modules current) := by
  intro l
  induction l with
  | nil => intro acc; simp
  | cons a l ih =>
    intro acc
    rw [List.foldl_cons]
    cases h : senseDir mesh modules current a with
    | none => rw [collectStep_none h, ih, List.filterMap_cons, h]
    | some c =>
      rw [collectStep_some h, ih, List.filterMap_cons, h, List.append_assoc,
        List.singleton_append]

lemma candidatesOf_eq_filterMap (mesh : Mesh) (modules : List Vec3) (current : Vec3) :
    candidatesOf mesh modules current
      = growth_directions.filterMap (senseDir mesh modules current) := by
  unfold candidatesOf
  rw [candidatesOf_foldl, List.nil_append]

lemma mem_candidatesOf {mesh : Mesh} {modules : List Vec3} {current c : Vec3}
    (hc : c ∈ candidatesOf mesh modules current) :
    ∃ d ∈ growth_directions, senseDir mesh modules current d = some c := by
  rw [candidatesOf_eq_filterMap] at hc
  simpa using List.mem_filterMap.mp hc

lemma senseDir_of_none {mesh : Mesh} {modules : List Vec3} {current d : Vec3}
    (h : mesh.closestMeshPoint (current + d) 1000.0 = none) :
    senseDir mesh modules current d = none := by
  unfold senseDir; rw [h]

lemma senseDir_of_some {mesh : Mesh} {modules : List Vec3} {current d : Vec3}
    {mp : MeshPoint} (h : mesh.closestMeshPoint (current + d) 1000.0 = some mp) :
    senseDir mesh modules current d
      = (if degrees (vectorAngle mp.normal zAxis) > max_slope_deg then none
        else if modules.any (fun existing => mp.point.distanceTo existing < min_dist - 0.1)
          then none
        else some mp.point) := by
  unfold senseDir; rw [h]

lemma senseDir_some_elim {mesh : Mesh} {modules : List Vec3} {current d c : Vec3}
    (h : senseDir mesh modules current d = some c) :
    ∃ mp : MeshPoint, mesh.closestMeshPoint (current + d) 1000.0 = some mp
      ∧ c = mp.point
      ∧ ¬ degrees (vectorAngle mp.normal zAxis) > max_slope_deg
      ∧ ∀ m ∈ modules, ¬ c.distanceTo m < min_dist - 0.1 := by
  cases hmp : mesh.closestMeshPoint (current + d) 1000.0 with
  | none => rw [senseDir_of_none hmp] at h; exact absurd h (by simp)
  | some mp =>
    rw [senseDir_of_some hmp] at h
    by_cases hslope : degrees (vectorAngle mp.normal zAxis) > max_slope_deg
    · rw [if_pos hslope] at h; exact absurd h (by simp)
    · rw [if_neg hslope] at h
      by_cases hcol : (modules.any
          (fun existing => mp.point.distanceTo existing < min_dist - 0.1)) = true
      · rw [if_pos hcol] at h; exact absurd h (by simp)
      · rw [if_neg hcol] at h
        have hcp : c = mp.point := by simpa using h.symm
        refine ⟨mp, rfl, hcp, hslope, ?_⟩
        intro m hm
        simp only [List.any_eq_true, decide_eq_true_eq, not_exists, not_and] at hcol
        rw [hcp]
        exact hcol m hm

/- ## Selector structure -/

lemma selStep_gt {current : Vec3} {acc : Option Vec3 × ℝ} {cand : Vec3}
    (h : scoreOf current cand > acc.2) :
    selStep current acc cand = (some cand, scoreOf current cand) := by
  unfold selStep; rw [if_pos h]

lemma selStep_le {current : Vec3} {acc : Option Vec3 × ℝ} {cand : Vec3}
    (h : ¬ scoreOf current cand > acc.2) :
    selStep current acc cand = acc := by
  unfold selStep; rw [if_neg h]

lemma selectBest_foldl_mem (current : Vec3) :
    ∀ (l : List Vec3) (acc : Option Vec3 × ℝ) (c : Vec3),
      (l.foldl (selStep current) acc).1 = some c → acc.1 = some c ∨ c ∈ l := by
  intro l
  induction l with
  | nil => intro acc c h; exact Or.inl h
  | cons a l ih =>
    intro acc c h
    rw [List.foldl_cons] at h
    by_cases hs : scoreOf current a > acc.2
    · rw [selStep_gt hs] at h
      rcases ih _ c h with h1 | h2
      · have ha : a = c := by simpa using h1
        exact Or.inr (ha ▸ List.mem_cons_self a l)
      · exact Or.inr (List.mem_cons_of_mem a h2)
    · rw [selStep_le hs] at h
      rcases ih _ c h with h1 | h2
      · exact Or.inl h1
      · exact Or.inr (List.mem_cons_of_mem a h2)

lemma selectBest_mem {current c : Vec3} {cands : List Vec3}
    (h : (selectBest current cands).1 = some c) : c ∈ cands := by
  rcases selectBest_foldl_mem current cands (none, -999.0) c h with h1 | h2
  · exact absurd h1 (by simp)
  · exact h2

lemma scoreOf_ge_neg_one (current cand : Vec3) : -1 ≤ scoreOf current cand := by
  unfold scoreOf
  exact Vec3.neg_one_le_dot _ _ (cand - current).unitize_dot_self_le_one
    sun_vec_raw.unitize_dot_self_le_one

lemma selectBest_foldl_isSome (current : Vec3) :
    ∀ (l : List Vec3) (acc : Option Vec3 × ℝ), acc.1.isSome →
      (l.foldl (selStep current) acc).1.isSome := by
  intro l
  induction l with
  | nil => intro acc h; exact h
  | cons a l ih =>
    intro acc h
    rw [List.foldl_cons]
    by_cases hs : scoreOf current a > acc.2
    · exact ih _ (by rw [selStep_gt hs]; simp)
    · exact ih _ (by rw [selStep_le hs]; exact h)

lemma selectBest_isSome (current : Vec3) {cands : List Vec3} (h : cands ≠ []) :
    ∃ c, (selectBest current cands).1 = some c := by
  cases cands with
  | nil => exact absurd rfl h
  | cons a l =>
    unfold selectBest
    rw [List.foldl_cons]
    have hgt : scoreOf current a > ((none, -999.0) : Option Vec3 × ℝ).2 := by
      have h1 := scoreOf_ge_neg_one current a
      simp only
      norm_num
      linarith
    rw [selStep_gt hgt]
    exact Option.isSome_iff_exists.mp
      (selectBest_foldl_isSome current l (some a, scoreOf current a) (by simp))

/- ## Driver-step structure -/

lemma stepIter_blocked {mesh : Mesh} {rand : ℕ → ℕ} {st : SimState} {i : ℕ}
    (h : candidatesOf mesh st.modules st.current = []) :
    stepIter mesh rand st i
      = { st with
            current := st.modules.getD (rand i % st.modules.length) st.current
            itersDone := st.itersDone + 1 } := by
  unfold stepIter
  rw [h]
  rfl

lemma stepIter_growing {mesh : Mesh} {rand : ℕ → ℕ} {st : SimState} {i : ℕ}
    {b : Vec3}
    (h : candidatesOf mesh st.modules st.current ≠ [])
    (hb : (selectBest st.current (candidatesOf mesh st.modules st.current)).1 = some b) :
    stepIter mesh rand st i
      = { modules := st.modules ++ [b]
          iterations := st.iterations ++ [i]
          current := b
          itersDone := st.itersDone + 1 } := by
  unfold stepIter
  rw [if_neg (by simpa [List.isEmpty_iff] using h), hb]

lemma stepIter_modules_shape (mesh : Mesh) (rand : ℕ → ℕ) (st : SimState) (i : ℕ) :
    ∃ t, (stepIter mesh rand st i).modules = st.modules ++ t ∧ t.length ≤ 1 := by
  by_cases h : candidatesOf mesh st.modules st.current = []
  · exact ⟨[], by rw [stepIter_blocked h]; simp, by simp⟩
  · obtain ⟨b, hb⟩ := selectBest_isSome st.current h
    exact ⟨[b], by rw [stepIter_growing h hb], by simp⟩

lemma stepIter_iterations_shape (mesh : Mesh) (rand : ℕ → ℕ) (st : SimState) (i : ℕ) :
    (stepIter mesh rand st i).iterations = st.iterations
      ∨ (stepIter mesh rand st i).iterations = st.iterations ++ [i] := by
  by_cases h : candidatesOf mesh st.modules st.current = []
  · exact Or.inl (by rw [stepIter_blocked h])
  · obtain ⟨b, hb⟩ := selectBest_isSome st.current h
    exact Or.inr (by rw [stepIter_growing h hb])

lemma stepIter_itersDone (mesh : Mesh) (rand : ℕ → ℕ) (st : SimState) (i : ℕ) :
    (stepIter mesh rand st i).itersDone = st.itersDone + 1 := by
  by_cases h : candidatesOf mesh st.modules st.current = []
  · rw [stepIter_blocked h]
  · obtain ⟨b, hb⟩ := selectBest_isSome st.current h
    rw [stepIter_growing h hb]

/- ## Loop-level facts -/

lemma foldl_itersDone (mesh : Mesh) (rand : ℕ → ℕ) :
    ∀ (l : List ℕ) (st : SimState),
      (l.foldl (stepIter mesh rand) st).itersDone = st.itersDone + l.length := by
  intro l
  induction l with
  | nil => intro st; simp
  | cons i l ih =>
    intro st
    rw [List.foldl_cons, ih, stepIter_itersDone]
    simp [Nat.add_assoc, Nat.add_comm 1 l.length]

lemma foldl_modules_append (mesh : Mesh) (rand : ℕ → ℕ) :
    ∀ (l : List ℕ) (st : SimState),
      ∃ t, (l.foldl (stepIter mesh rand) st).modules = st.modules ++ t
        ∧ t.length ≤ l.length := by
  intro l
  induction l with
  | nil => intro st; exact ⟨[], by simp, by simp⟩
  | cons i l ih =>
    intro st
    rw [List.foldl_cons]
    obtain ⟨t1, ht1, hl1⟩ := stepIter_modules_shape mesh rand st i
    obtain ⟨t2, ht2, hl2⟩ := ih (stepIter mesh rand st i)
    refine ⟨t1 ++ t2, ?_, ?_⟩
    · rw [ht2, ht1, List.append_assoc]
    · simp only [List.length_append, List.length_cons]
      omega

/- ## Spacing invariant machinery -/

lemma selectBest_winner_spacing {mesh : Mesh} {st : SimState} {b : Vec3}
    (hb : (selectBest st.current (candidatesOf mesh st.modules st.current)).1 = some b) :
    ∀ m ∈ st.modules, min_dist - 0.1 ≤ b.distanceTo m := by
  intro m hm
  obtain ⟨d, _, hsd⟩ := mem_candidatesOf (selectBest_mem hb)
  obtain ⟨mp, _, _, _, hcol⟩ := senseDir_some_elim hsd
  exact not_lt.mp (hcol m hm)

lemma foldl_pairwise (mesh : Mesh) (rand : ℕ → ℕ) :
    ∀ (l : List ℕ) (st : SimState),
      st.modules.Pairwise (fun a b => min_dist - 0.1 ≤ a.distanceTo b) →
      (l.foldl (stepIter mesh rand) st).modules.Pairwise
        (fun a b => min_dist - 0.1 ≤ a.distanceTo b) := by
  intro l
  induction l with
  | nil => intro st h; exact h
  | cons i l ih =>
    intro st h
    rw [List.foldl_cons]
    refine ih _ ?_
    by_cases hc : candidatesOf mesh st.modules st.current = []
    · rw [stepIter_blocked hc]; exact h
    · obtain ⟨b, hb⟩ := selectBest_isSome st.current hc
      rw [stepIter_growing hc hb]
      simp only
      rw [List.pairwise_append]
      refine ⟨h, by simp, ?_⟩
      intro a ha b' hb'
      have hb'' : b' = b := by simpa using hb'
      subst hb''
      rw [Vec3.distanceTo_symm]
      exact selectBest_winner_spacing hb a ha

/- ## Slope-grounding machinery -/

/-- `m` has a grounded surface normal within the slope limit, through the
loop's per-candidate grounding radius 1000.0: some oracle query returns `m`
as its surface point with a normal at angle at most `max_slope_deg` from the
up axis. -/
def slopeCompliant (mesh : Mesh) (m : Vec3) : Prop :=
  ∃ q mp, mesh.closestMeshPoint q 1000.0 = some mp ∧ mp.point = m
    ∧ degrees (vectorAngle mp.normal zAxis) ≤ max_slope_deg

/-- The permissive form of `slopeCompliant` that allows any grounding radius
(also the seed's 1000000.0). -/
def slopeCompliantAny (mesh : Mesh) (m : Vec3) : Prop :=
  ∃ q r mp, mesh.closestMeshPoint q r = some mp ∧ mp.point = m
    ∧ degrees (vectorAngle mp.normal zAxis) ≤ max_slope_deg

lemma selectBest_winner_slope {mesh : Mesh} {st : SimState} {b : Vec3}
    (hb : (selectBest st.current (candidatesOf mesh st.modules st.current)).1 = some b) :
    slopeCompliant mesh b := by
  obtain ⟨d, _, hsd⟩ := mem_candidatesOf (selectBest_mem hb)
  obtain ⟨mp, hmp, hcp, hsl, _⟩ := senseDir_some_elim hsd
  exact ⟨st.current + d, mp, hmp, hcp.symm, not_lt.mp hsl⟩

lemma foldl_grounded (mesh : Mesh) (rand : ℕ → ℕ) :
    ∀ (l : List ℕ) (st : SimState) (m0 : Vec3) (tl : List Vec3),
      st.modules = m0 :: tl → (∀ m ∈ tl, slopeCompliant mesh m) →
      ∃ tl', (l.foldl (stepIter mesh rand) st).modules = m0 :: tl'
        ∧ ∀ m ∈ tl', slopeCompliant mesh m := by
  intro l
  induction l with
  | nil => intro st m0 tl h1 h2; exact ⟨tl, h1, h2⟩
  | cons i l ih =>
    intro st m0 tl h1 h2
    rw [List.foldl_cons]
    by_cases hc : candidatesOf mesh st.modules st.current = []
    · exact ih _ m0 tl (by rw [stepIter_blocked hc]; exact h1) h2
    · obtain ⟨b, hb⟩ := selectBest_isSome st.current hc
      refine ih _ m0 (tl ++ [b]) ?_ ?_
      · rw [stepIter_growing hc hb]
        simp only
        rw [h1]
        rfl
      · intro m hm
        rcases List.mem_append.mp hm with hm1 | hm2
        · exact h2 m hm1
        · have hmb : m = b := by simpa using hm2
          subst hmb
          exact selectBest_winner_slope hb

/- ## Creation-order machinery -/

lemma head_append_of_ne_nil {α : Type} (l l' : List α) (h : l ≠ []) :
    (l ++ l').head? = l.head? := by
  cases l with
  | nil => exact absurd rfl h
  | cons a t => rfl

lemma foldl_modules_head (mesh : Mesh) (rand : ℕ → ℕ) (l : List ℕ) (st : SimState)
    (h : st.modules ≠ []) :
    (l.foldl (stepIter mesh rand) st).modules.head? = st.modules.head? := by
  obtain ⟨t, ht, _⟩ := foldl_modules_append mesh rand l st
  rw [ht, head_append_of_ne_nil _ _ h]

lemma foldl_iterations_inv (mesh : Mesh) (rand : ℕ → ℕ) :
    ∀ (l : List ℕ) (st : SimState),
      l.Pairwise (· < ·) →
      (∀ j ∈ st.iterations, ∀ i ∈ l, j < i) →
      st.iterations ≠ [] →
      st.iterations.Pairwise (· < ·) →
      (l.foldl (stepIter mesh rand) st).iterations.Pairwise (· < ·)
        ∧ (l.foldl (stepIter mesh rand) st).iterations.head? = st.iterations.head?
        ∧ (l.foldl (stepIter mesh rand) st).iterations ≠ [] := by
  intro l
  induction l with
  | nil => intro st _ _ h3 h4; exact ⟨h4, rfl, h3⟩
  | cons i l ih =>
    intro st hl hdom hne hpw
    rw [List.foldl_cons]
    have hl' : l.Pairwise (· < ·) := (List.pairwise_cons.mp hl).2
    have hil : ∀ i' ∈ l, i < i' := (List.pairwise_cons.mp hl).1
    rcases stepIter_iterations_shape mesh rand st i with hsame | happ
    · have hres := ih (stepIter mesh rand st i) hl'
        (by rw [hsame]; intro j hj i' hi'; exact hdom j hj i' (List.mem_cons_of_mem i hi'))
        (by rw [hsame]; exact hne) (by rw [hsame]; exact hpw)
      rw [hsame] at hres
      exact hres
    · have hdom' : ∀ j ∈ st.iterations ++ [i], ∀ i' ∈ l, j < i' := by
        intro j hj i' hi'
        rcases List.mem_append.mp hj with h1 | h2
        · exact hdom j h1 i' (List.mem_cons_of_mem i hi')
        · have hji : j = i := by simpa using h2
          subst hji
          exact hil i' hi'
      have hpw' : (st.iterations ++ [i]).Pairwise (· < ·) := by
        rw [List.pairwise_append]
        refine ⟨hpw, by simp, ?_⟩
        intro a ha b hb
        have hbi : b = i := by simpa using hb
        subst hbi
        exact hdom a ha b (List.mem_cons_self b l)
      have hres := ih (stepIter mesh rand st i) hl'
        (by rw [happ]; exact hdom') (by rw [happ]; simp) (by rw [happ]; exact hpw')
      rw [happ] at hres
      exact ⟨hres.1, by rw [hres.2.1, head_append_of_ne_nil _ _ hne], hres.2.2⟩

/- ## Selector argmax machinery -/

lemma selectBest_foldl_argmax (current : Vec3) :
    ∀ (l : List Vec3) (b : Vec3),
      ∃ c pre post,
        (l.foldl (selStep current) (some b, scoreOf current b)).1 = some c
        ∧ b :: l = pre ++ c :: post
        ∧ (∀ e ∈ b :: l, scoreOf current e ≤ scoreOf current c)
        ∧ (∀ e ∈ pre, scoreOf current e < scoreOf current c) := by
  intro l
  induction l with
  | nil =>
    intro b
    refine ⟨b, [], [], rfl, rfl, ?_, by simp⟩
    intro e he
    have heb : e = b := by simpa using he
    subst heb
    exact le_refl _
  | cons a l ih =>
    intro b
    rw [List.foldl_cons]
    by_cases hs : scoreOf current a > scoreOf current b
    · rw [show selStep current (some b, scoreOf current b) a
          = (some a, scoreOf current a) from selStep_gt hs]
      obtain ⟨c, pre, post, h1, h2, h3, h4⟩ := ih a
      refine ⟨c, b :: pre, post, h1, by rw [List.cons_append, ← h2], ?_, ?_⟩
      · intro e he
        rcases List.mem_cons.mp he with he1 | he2
        · subst he1
          exact le_of_lt (lt_of_lt_of_le hs (h3 a (List.mem_cons_self a l)))
        · exact h3 e he2
      · intro e he
        rcases List.mem_cons.mp he with he1 | he2
        · subst he1
          exact lt_of_lt_of_le hs (h3 a (List.mem_cons_self a l))
        · exact h4 e he2
    · rw [show selStep current (some b, scoreOf current b) a
          = (some b, scoreOf current b) from selStep_le hs]
      obtain ⟨c, pre, post, h1, h2, h3, h4⟩ := ih b
      have hsa : scoreOf current a ≤ scoreOf current b := not_lt.mp hs
      cases pre with
      | nil =>
        have hbc : b = c := by
          have hh := congrArg List.head? h2
          simpa using hh
        have hlp : l = post := by
          have hh := congrArg List.tail h2
          simpa using hh
        refine ⟨c, [], a :: post, h1, by rw [← hbc, hlp]; rfl, ?_, by simp⟩
        intro e he
        rcases List.mem_cons.mp he with he1 | he2
        · subst he1
          exact le_of_eq (by rw [hbc])
        · rcases List.mem_cons.mp he2 with he3 | he4
          · subst he3
            exact hsa.trans (le_of_eq (by rw [hbc]))
          · exact h3 e (List.mem_cons_of_mem b he4)
      | cons p pre' =>
        have hbp : b = p := by
          have hh := congrArg List.head? h2
          simpa using hh
        have hl2 : l = pre' ++ c :: post := by
          have hh := congrArg List.tail h2
          simpa using hh
        have hbc : scoreOf current b < scoreOf current c := by
          apply h4
          rw [hbp]
          exact List.mem_cons_self p pre'
        refine ⟨c, b :: a :: pre', post, h1, by rw [hl2]; rfl, ?_, ?_⟩
        · intro e he
          rcases List.mem_cons.mp he with he1 | he2
          · subst he1
            exact h3 e (List.mem_cons_self e l)
          · rcases List.mem_cons.mp he2 with he3 | he4
            · subst he3
              exact hsa.trans (le_of_lt hbc)
            · exact h3 e (List.mem_cons_of_mem b he4)
        · intro e he
          rcases List.mem_cons.mp he with he1 | he2
          · subst he1
            exact hbc
          · rcases List.mem_cons.mp he2 with he3 | he4
            · subst he3
              exact lt_of_le_of_lt hsa hbc
            · exact h4 e (List.mem_cons_of_mem p he4)

/- ## Concrete evaluation lemmas -/

lemma growth_directions_explicit :
    growth_directions
      = [hexDir 0, hexDir 1, hexDir 2, hexDir 3, hexDir 4, hexDir 5] := by
  unfold growth_directions
  rfl

lemma up_dot_up : (⟨0, 0, 1⟩ : Vec3).dot ⟨0, 0, 1⟩ = 1 := by
  unfold Vec3.dot; norm_num

lemma not_steep_up : ¬ degrees (vectorAngle (⟨0, 0, 1⟩ : Vec3) zAxis) > max_slope_deg := by
  have h : vectorAngle (⟨0, 0, 1⟩ : Vec3) zAxis = 0 := by
    unfold vectorAngle zAxis Vec3.norm
    rw [up_dot_up, Real.sqrt_one]
    norm_num [Real.arccos_one]
  rw [h]
  unfold degrees max_slope_deg
  norm_num

lemma steep_x_angle : degrees (vectorAngle (⟨1, 0, 0⟩ : Vec3) zAxis) = 90 := by
  have hd : (⟨1, 0, 0⟩ : Vec3).dot ⟨0, 0, 1⟩ = 0 := by unfold Vec3.dot; norm_num
  have h1 : (⟨1, 0, 0⟩ : Vec3).dot ⟨1, 0, 0⟩ = 1 := by unfold Vec3.dot; norm_num
  unfold vectorAngle zAxis Vec3.norm
  rw [hd, h1, up_dot_up, Real.sqrt_one]
  rw [show (0 : ℝ) / (1 * 1) = 0 from by norm_num, Real.arccos_zero]
  unfold degrees
  field_simp
  ring

lemma dist_p100_seed0 : (⟨100, 0, 0⟩ : Vec3).distanceTo seed0 = 100 := by
  have h : ((⟨100, 0, 0⟩ : Vec3) - seed0).dot ((⟨100, 0, 0⟩ : Vec3) - seed0) = 10000 := by
    unfold seed0 Vec3.dot
    simp only [Vec3.sub_x, Vec3.sub_y, Vec3.sub_z]
    norm_num
  unfold Vec3.distanceTo Vec3.norm
  rw [h, show (10000 : ℝ) = 100 ^ 2 from by norm_num,
    Real.sqrt_sq (by norm_num : (0 : ℝ) ≤ 100)]

lemma senseDir_const (d : Vec3) :
    senseDir mesh_const [seed0] seed0 d = some ⟨100, 0, 0⟩ := by
  rw [@senseDir_of_some mesh_const [seed0] seed0 d ⟨⟨100, 0, 0⟩, ⟨0, 0, 1⟩⟩ rfl]
  rw [if_neg not_steep_up, if_neg]
  intro hcol
  rw [List.any_eq_true] at hcol
  obtain ⟨m, hm, hlt⟩ := hcol
  have hms : m = seed0 := by simpa using hm
  subst hms
  rw [decide_eq_true_eq] at hlt
  rw [show (⟨⟨100, 0, 0⟩, ⟨0, 0, 1⟩⟩ : MeshPoint).point = ⟨100, 0, 0⟩ from rfl,
    dist_p100_seed0] at hlt
  unfold min_dist at hlt
  norm_num at hlt

lemma candidatesOf_const_ne_nil : candidatesOf mesh_const [seed0] seed0 ≠ [] := by
  rw [candidatesOf_eq_filterMap, growth_directions_explicit]
  rw [List.filterMap_cons, senseDir_const]
  simp

/- ## Hexagonal direction facts -/

lemma hexDir_z (i : ℕ) : (hexDir i).z = 0 := by
  unfold hexDir
  simp

lemma hexDir_norm (i : ℕ) : (hexDir i).norm = step_size := by
  unfold Vec3.norm
  have hsc := Real.sin_sq_add_cos_sq (radians ((i : ℝ) * 60))
  have hd : (hexDir i).dot (hexDir i) = step_size ^ 2 := by
    unfold hexDir Vec3.dot
    simp only [Vec3.smul_x, Vec3.smul_y, Vec3.smul_z]
    linear_combination step_size ^ 2 * hsc
  rw [hd, Real.sqrt_sq (by unfold step_size; norm_num)]

lemma hexDir_zero : hexDir 0 = ⟨3.5, 0, 0⟩ := by
  unfold hexDir radians step_size
  ext
  · simp
  · simp
  · simp

lemma hexDir_angle (i : ℕ) : degrees (vectorAngle (hexDir i) (hexDir (i + 1))) = 60 := by
  have hpi := Real.pi_ne_zero
  have hdot : (hexDir i).dot (hexDir (i + 1)) = step_size ^ 2 * Real.cos (Real.pi / 3) := by
    unfold hexDir Vec3.dot radians
    push_cast
    simp only [Vec3.smul_x, Vec3.smul_y, Vec3.smul_z]
    have hcos := Real.cos_sub (((i : ℝ) + 1) * 60 * Real.pi / 180)
      ((i : ℝ) * 60 * Real.pi / 180)
    have harg : ((i : ℝ) + 1) * 60 * Real.pi / 180 - (i : ℝ) * 60 * Real.pi / 180
        = Real.pi / 3 := by ring
    rw [harg] at hcos
    linear_combination (-step_size ^ 2) * hcos
  unfold vectorAngle
  rw [hdot, hexDir_norm i, hexDir_norm (i + 1)]
  have hs : step_size ^ 2 * Real.cos (Real.pi / 3) / (step_size * step_size)
      = Real.cos (Real.pi / 3) := by
    unfold step_size
    field_simp
    ring
  rw [hs, Real.arccos_cos (by positivity) (by linarith [Real.pi_pos])]
  unfold degrees
  field_simp
  ring

/- ## Claim theorems -/

/-- Claim C1: in every run of `run_simulation`, any two distinct modules of
the returned colony are at distance at least `min_dist - 0.1` (the tolerance
is the fixed subtractive margin 0.1), because every accepted candidate was
rejected whenever its distance to some existing module fell below
`min_dist - 0.1`. -/
theorem C1_spacing_invariant (mesh : Mesh) (seed_point : Vec3) (rand : ℕ → ℕ)
    (max_modules : ℕ) :
    (run_simulation mesh seed_point rand max_modules).Pairwise
      (fun a b => min_dist - 0.1 ≤ a.distanceTo b) := by
  unfold run_simulation run_simulation_full
  exact foldl_pairwise mesh rand _ _ (by unfold initState; simp)

/-- Claim C2 as stated is false: on the everywhere-vertical surface
`mesh_steep` (every oracle answer carries the horizontal normal `(1,0,0)`,
at 90° from the up axis) with `max_modules = 0`, the returned colony is the
seed module alone, and no oracle grounding of it — at any radius — has a
normal within `max_slope_deg` of the up axis; the seed is never
slope-checked. -/
theorem C2_counterexample :
    ¬ (run_simulation mesh_steep seed0 rand0 0).Forall (slopeCompliantAny mesh_steep) := by
  intro h
  have hrun : run_simulation mesh_steep seed0 rand0 0 = [seed0] := rfl
  rw [hrun] at h
  have h1 : slopeCompliantAny mesh_steep seed0 :=
    (List.forall_iff_forall_mem.mp h) _ (List.mem_singleton_self _)
  obtain ⟨q, r, mp, hmp, _, hang⟩ := h1
  have hq : mesh_steep.closestMeshPoint q r = some ⟨q, ⟨1, 0, 0⟩⟩ := rfl
  rw [hq] at hmp
  have hmp2 : (⟨q, ⟨1, 0, 0⟩⟩ : MeshPoint) = mp := by simpa using hmp
  rw [← hmp2] at hang
  rw [show (⟨q, ⟨1, 0, 0⟩⟩ : MeshPoint).normal = ⟨1, 0, 0⟩ from rfl] at hang
  rw [steep_x_angle] at hang
  unfold max_slope_deg at hang
  norm_num at hang

/-- Claim C2, amended: every module of the returned colony other than the
seed (i.e. every module appended during the growth loop) was grounded by the
oracle at radius 1000.0 with a surface normal whose angle with the up axis
is at most `max_slope_deg`; the seed module's normal is unconstrained. -/
theorem C2_slope_invariant_amended (mesh : Mesh) (seed_point : Vec3) (rand : ℕ → ℕ)
    (max_modules : ℕ) :
    ((run_simulation mesh seed_point rand max_modules).drop 1).Forall
      (slopeCompliant mesh) := by
  unfold run_simulation run_simulation_full
  obtain ⟨tl', h1, h2⟩ := foldl_grounded mesh rand (List.range' 1 max_modules)
    (initState mesh seed_point) (groundedSeed mesh seed_point) [] rfl (by simp)
  rw [h1]
  rw [show (groundedSeed mesh seed_point :: tl').drop 1 = tl' from rfl]
  exact List.forall_iff_forall_mem.mpr h2

/-- Claim C3 as stated is false: on the surface `mesh_none` whose oracle
finds nothing at any radius, the seed projection returns nothing yet
`run_simulation` raises no error — it proceeds with the raw, ungrounded seed
point as the first module (line 50: `current = mp.Point if mp else
seed_point`) and returns a colony normally. -/
theorem C3_counterexample :
    mesh_none.closestMeshPoint seed0 1000000.0 = none
      ∧ run_simulation mesh_none seed0 rand0 0 = [seed0] :=
  ⟨rfl, rfl⟩

/-- Claim C3, amended: when the large-radius seed projection returns
nothing, `run_simulation` does not fail; it uses the raw seed point itself
as the first (ungrounded) module and runs the growth loop normally. -/
theorem C3_ungrounded_seed_amended (mesh : Mesh) (seed_point : Vec3) (rand : ℕ → ℕ)
    (max_modules : ℕ) (h : mesh.closestMeshPoint seed_point 1000000.0 = none) :
    (run_simulation mesh seed_point rand max_modules).head? = some seed_point := by
  have hg : groundedSeed mesh seed_point = seed_point := by
    unfold groundedSeed
    rw [h]
  unfold run_simulation run_simulation_full
  rw [foldl_modules_head mesh rand _ _ (by unfold initState; simp)]
  unfold initState
  simp [hg]

theorem C3_amended_witness :
    mesh_none.closestMeshPoint seed0 1000000.0 = none
      ∧ (run_simulation mesh_none seed0 rand0 0).head? = some seed0 :=
  ⟨rfl, C3_ungrounded_seed_amended mesh_none seed0 rand0 0 rfl⟩

/-- Claim C4: with budget `max_modules = N` the driver performs exactly N
decision iterations (BLOCKED iterations consume the budget exactly like
GROWING ones), and the returned colony has at most `N + 1` modules. -/
theorem C4_budget_semantics (mesh : Mesh) (seed_point : Vec3) (rand : ℕ → ℕ)
    (max_modules : ℕ) :
    (run_simulation_full mesh seed_point rand max_modules).itersDone = max_modules
      ∧ (run_simulation mesh seed_point rand max_modules).length ≤ max_modules + 1 := by
  constructor
  · unfold run_simulation_full
    rw [foldl_itersDone]
    simp [initState]
  · unfold run_simulation run_simulation_full
    obtain ⟨t, ht, hle⟩ := foldl_modules_append mesh rand (List.range' 1 max_modules)
      (initState mesh seed_point)
    rw [ht]
    simp only [initState, List.length_append, List.length_cons, List.length_nil]
    simp only [List.length_range'] at hle
    omega

/-- Claim C5: the direction generator is a fixed (hence deterministic)
ordered sequence of exactly 6 vectors in the plane `z = 0`, starting at
angle 0 — the first vector is `(3.5, 0, 0)` — each of magnitude
`step_size = 3.5`, with consecutive vectors 60 degrees apart. -/
theorem C5_direction_set :
    growth_directions.length = 6
      ∧ growth_directions.head? = some ⟨3.5, 0, 0⟩
      ∧ growth_directions.Forall (fun v => v.z = 0 ∧ v.norm = step_size)
      ∧ List.Chain' (fun u v => degrees (vectorAngle u v) = 60) growth_directions := by
  refine ⟨by rw [growth_directions_explicit]; rfl, ?_, ?_, ?_⟩
  · rw [growth_directions_explicit]
    rw [show ([hexDir 0, hexDir 1, hexDir 2, hexDir 3, hexDir 4, hexDir 5].head?)
        = some (hexDir 0) from rfl]
    rw [hexDir_zero]
  · rw [List.forall_iff_forall_mem]
    intro v hv
    unfold growth_directions at hv
    obtain ⟨i, _, rfl⟩ := List.mem_map.mp hv
    exact ⟨hexDir_z i, hexDir_norm i⟩
  · rw [growth_directions_explicit]
    simp only [List.chain'_cons, List.chain'_singleton, and_true]
    exact ⟨hexDir_angle 0, hexDir_angle 1, hexDir_angle 2, hexDir_angle 3, hexDir_angle 4⟩

/-- A concrete driver state (seed colony at the origin) used by witnesses. -/
noncomputable def st0 : SimState :=
  { modules := [seed0], iterations := [0], current := seed0, itersDone := 0 }

/-- Claim C6: on any non-empty candidate list the selector returns the
candidate whose score `dot(unitize(cand - cursor), sun_vec)` is maximal,
and among equal-score maxima the one appearing earliest in the input
(DirectionSet) order: every candidate strictly before the winner has a
strictly smaller score, and no candidate scores higher. -/
theorem C6_selector_argmax (current : Vec3) (cands : List Vec3) (h : cands ≠ []) :
    ∃ c pre post, (selectBest current cands).1 = some c
      ∧ cands = pre ++ c :: post
      ∧ (∀ e ∈ cands, scoreOf current e ≤ scoreOf current c)
      ∧ (∀ e ∈ pre, scoreOf current e < scoreOf current c) := by
  cases cands with
  | nil => exact absurd rfl h
  | cons a l =>
    unfold selectBest
    rw [List.foldl_cons]
    have hgt : scoreOf current a > ((none, -999.0) : Option Vec3 × ℝ).2 := by
      have h1 := scoreOf_ge_neg_one current a
      simp only
      norm_num
      linarith
    rw [selStep_gt hgt]
    exact selectBest_foldl_argmax current l a

theorem C6_witness :
    (([⟨1, 0, 0⟩] : List Vec3) ≠ [])
      ∧ ∃ c pre post, (selectBest seed0 [⟨1, 0, 0⟩]).1 = some c
        ∧ [(⟨1, 0, 0⟩ : Vec3)] = pre ++ c :: post
        ∧ (∀ e ∈ [(⟨1, 0, 0⟩ : Vec3)], scoreOf seed0 e ≤ scoreOf seed0 c)
        ∧ (∀ e ∈ pre, scoreOf seed0 e < scoreOf seed0 c) :=
  ⟨by simp, C6_selector_argmax seed0 [⟨1, 0, 0⟩] (by simp)⟩

/-- Claim C7: (i) the candidate list is exactly the per-direction sensing
results in direction order, so each rejection is local to its direction;
(ii) an oracle projection failure for a direction yields rejection of just
that candidate, with no error; (iii) when the accepted set is empty the
iteration is BLOCKED: no module is appended, the creation-index list is
unchanged, and the cursor becomes the colony entry selected by the injected
random index — the uniform `random.choice` draw — with no error surfaced
(the step is a total function). -/
theorem C7_blocked_and_local_failure :
    (∀ (mesh : Mesh) (modules : List Vec3) (current : Vec3),
      candidatesOf mesh modules current
        = growth_directions.filterMap (senseDir mesh modules current))
    ∧ (∀ (mesh : Mesh) (modules : List Vec3) (current d : Vec3),
        mesh.closestMeshPoint (current + d) 1000.0 = none →
        senseDir mesh modules current d = none)
    ∧ (∀ (mesh : Mesh) (rand : ℕ → ℕ) (st : SimState) (i : ℕ),
        candidatesOf mesh st.modules st.current = [] →
        stepIter mesh rand st i
          = { st with
                current := st.modules.getD (rand i % st.modules.length) st.current
                itersDone := st.itersDone + 1 }) :=
  ⟨candidatesOf_eq_filterMap,
   fun _ _ _ _ h => senseDir_of_none h,
   fun _ _ _ _ h => stepIter_blocked h⟩

theorem C7_witness :
    (senseDir mesh_none [seed0] seed0 (hexDir 0) = none)
      ∧ stepIter mesh_none rand0 st0 1
        = { st0 with
              current := st0.modules.getD (rand0 1 % st0.modules.length) st0.current
              itersDone := st0.itersDone + 1 } :=
  ⟨C7_blocked_and_local_failure.2.1 mesh_none [seed0] seed0 (hexDir 0) rfl,
   C7_blocked_and_local_failure.2.2 mesh_none rand0 st0 1 rfl⟩

/-- Claim C8: the colony is append-only — each decision iteration extends
the module list by at most one new final element, never touching existing
entries — the first element of the returned colony is the grounded seed,
its creation index is 0, and the recorded creation indices are strictly
increasing (insertion order equals growth order). -/
theorem C8_append_only (mesh : Mesh) (seed_point : Vec3) (rand : ℕ → ℕ)
    (max_modules : ℕ) :
    (∀ (st : SimState) (i : ℕ),
      ∃ t, (stepIter mesh rand st i).modules = st.modules ++ t ∧ t.length ≤ 1)
    ∧ (run_simulation mesh seed_point rand max_modules).head?
        = some (groundedSeed mesh seed_point)
    ∧ (run_simulation_full mesh seed_point rand max_modules).iterations.head? = some 0
    ∧ (run_simulation_full mesh seed_point rand max_modules).iterations.Pairwise
        (· < ·) := by
  refine ⟨stepIter_modules_shape mesh rand, ?_, ?_, ?_⟩
  · unfold run_simulation run_simulation_full
    rw [foldl_modules_head mesh rand _ _ (by unfold initState; simp)]
    rfl
  · unfold run_simulation_full
    have hinv := foldl_iterations_inv mesh rand (List.range' 1 max_modules)
      (initState mesh seed_point)
      (List.pairwise_lt_range' 1 max_modules)
      (by
        intro j hj i hi
        have hj0 : j = 0 := by simpa [initState] using hj
        have hi1 : 1 ≤ i := (List.mem_range'_1.mp hi).1
        omega)
      (by unfold initState; simp)
      (by unfold initState; simp)
    rw [hinv.2.1]
    rfl
  · unfold run_simulation_full
    exact (foldl_iterations_inv mesh rand (List.range' 1 max_modules)
      (initState mesh seed_point)
      (List.pairwise_lt_range' 1 max_modules)
      (by
        intro j hj i hi
        have hj0 : j = 0 := by simpa [initState] using hj
        have hi1 : 1 ≤ i := (List.mem_range'_1.mp hi).1
        omega)
      (by unfold initState; simp)
      (by unfold initState; simp)).1

/-- Claim C9: the simulation is deterministic — identical surface oracle,
seed point, iteration budget (the configuration is a fixed constant of the
program) and identical pseudo-random source produce identical colonies. -/
theorem C9_determinism (mesh₁ mesh₂ : Mesh) (seed₁ seed₂ : Vec3)
    (rand₁ rand₂ : ℕ → ℕ) (n₁ n₂ : ℕ)
    (hm : mesh₁ = mesh₂) (hs : seed₁ = seed₂) (hr : rand₁ = rand₂) (hn : n₁ = n₂) :
    run_simulation mesh₁ seed₁ rand₁ n₁ = run_simulation mesh₂ seed₂ rand₂ n₂ := by
  subst hm
  subst hs
  subst hr
  subst hn
  rfl

theorem C9_witness :
    run_simulation mesh_none seed0 rand0 0 = run_simulation mesh_none seed0 rand0 0 :=
  C9_determinism mesh_none mesh_none seed0 seed0 rand0 rand0 0 0 rfl rfl rfl rfl

/-- Claim C10: in every GROWING iteration (non-empty accepted candidate
set) the selector's `best_cand` is assigned — every score is at least -1,
which exceeds the -999.0 sentinel — so the defensive guard is taken and
exactly one module is appended, with creation index equal to the iteration
number, the cursor moving to it. -/
theorem C10_growing_appends (mesh : Mesh) (rand : ℕ → ℕ) (st : SimState) (i : ℕ)
    (h : candidatesOf mesh st.modules st.current ≠ []) :
    ∃ b, (selectBest st.current (candidatesOf mesh st.modules st.current)).1 = some b
      ∧ stepIter mesh rand st i
        = { modules := st.modules ++ [b]
            iterations := st.iterations ++ [i]
            current := b
            itersDone := st.itersDone + 1 } := by
  obtain ⟨b, hb⟩ := selectBest_isSome st.current h
  exact ⟨b, hb, stepIter_growing h hb⟩

theorem C10_witness :
    candidatesOf mesh_const st0.modules st0.current ≠ []
      ∧ ∃ b, (selectBest st0.current (candidatesOf mesh_const st0.modules st0.current)).1
          = some b
        ∧ stepIter mesh_const rand0 st0 1
          = { modules := st0.modules ++ [b]
              iterations := st0.iterations ++ [1]
              current := b
              itersDone := st0.itersDone + 1 } :=
  ⟨candidatesOf_const_ne_nil,
   C10_growing_appends mesh_const rand0 st0 1 candidatesOf_const_ne_nil⟩
